import Mathlib

/-!
Verification of the HTML-to-structured-document conversion pipeline of the
brendans-blog repository.

The definitions below are shallow embeddings of the JavaScript functions in
  scripts/substack-to-json.js
  scripts/update-post-formatting.js  (identical logic in update-skipped-posts.js)
  netlify/functions/rss-feed.js
JS strings are modelled as Lean `String`s (the claims only involve ASCII data),
JS arrays as `List`s, absent/null fields as `Option`s, and the DOM trees that
JSDOM hands to the converters as the inductive type `HNode`.  The
`Math.random()`/`Date.now()` key generator is modelled as a fresh-counter
supply threaded through `addKeysToContent`.
-/

set_option maxRecDepth 10000

namespace Blog

/-- Whitespace as matched by the JS regex class `\s` (ASCII part; the inputs
in the claims contain only ASCII). -/
def jsWs (c : Char) : Bool :=
  c = ' ' || c = '\t' || c = '\n' || c = '\r' || c = '\x0b' || c = '\x0c'

/-- Drop leading JS whitespace, as in `text.replace(/^\s+/, '')`. -/
def trimStartChars (l : List Char) : List Char :=
  l.dropWhile jsWs

/-- Drop trailing JS whitespace, as in `text.replace(/\s+$/, '')`. -/
def trimEndChars (l : List Char) : List Char :=
  (l.reverse.dropWhile jsWs).reverse

/-- JS `String.prototype.trim()`. -/
def jsTrim (s : String) : String :=
  ⟨trimEndChars (trimStartChars s.data)⟩

/-- JS `String.prototype.toLowerCase()` (ASCII range). -/
def jsToLower (s : String) : String :=
  ⟨s.data.map Char.toLower⟩

/-- JS `String.prototype.startsWith` (computable model on char lists). -/
def jsStartsWith (s pre : String) : Bool :=
  pre.data.isPrefixOf s.data

/-- One inline span, the `{_type: 'span', text, marks}` objects produced by the
converters; `key` models the optional `_key` field. -/
structure Span where
  key : Option String
  text : String
  marks : List String
deriving Repr, DecidableEq

/-- One mark definition, the `{_key, _type: 'link', href}` objects; `key`
models the `_key` field (`none` = absent). -/
structure MarkDef where
  key : Option String
  type : String
  href : String
deriving Repr, DecidableEq

/-- One Portable Text block as produced by the converters: `_type: 'block'`
text blocks (with optional `listItem` and optional `markDefs` array),
`_type: 'image'` blocks (`_imageUrl`, `alt`) and `_type: 'codeBlock'` blocks
(`code.code`, `code.language`; the constant `filename: null` field is
omitted). -/
inductive Block where
  | block (key : Option String) (style : String) (listItem : Option String)
      (children : List Span) (markDefs : Option (List MarkDef))
  | image (key : Option String) (url : String) (alt : String)
  | codeBlock (key : Option String) (code : String) (language : String)
deriving Repr, DecidableEq

/-! ## Key assigner (`addKeysToContent` in scripts/update-post-formatting.js
lines 252-287 and scripts/update-skipped-posts.js lines 243-277).

`generateKey` in the source is
`prefix + '-' + Math.random().toString(36).substr(2, 9) + '-' + Date.now()`;
the random/time part is modelled by a fresh `Nat` counter threaded through the
traversal, so each call yields a fresh key string. -/

/-- Model of `generateKey(prefix)`: the counter `n` stands for the
random-suffix-plus-timestamp part. -/
def generateKey (p : String) (n : Nat) : String :=
  p ++ "-" ++ toString n

/-- Map a key-assigning step over a JS array left to right, threading the
fresh-key counter. -/
def addKeysList (f : α → Nat → α × Nat) : List α → Nat → List α × Nat
  | [], n => ([], n)
  | x :: xs, n =>
    let r := f x n
    let rs := addKeysList f xs r.2
    (r.1 :: rs.1, rs.2)

/-- Span step of `addKeysToContent`: `if (!child._key) {...spread, _key: generateKey('span')}`. -/
def addKeysSpan (s : Span) (n : Nat) : Span × Nat :=
  match s.key with
  | none => ({ s with key := some (generateKey "span" n) }, n + 1)
  | some _ => (s, n)

/-- MarkDef step of `addKeysToContent`: `if (!markDef._key) {...spread, _key: generateKey('mark')}`. -/
def addKeysMarkDef (d : MarkDef) (n : Nat) : MarkDef × Nat :=
  match d.key with
  | none => ({ d with key := some (generateKey "mark" n) }, n + 1)
  | some _ => (d, n)

/-- Per-block body of `addKeysToContent`: assign the block `_key` when absent;
for `_type === 'block'` also fill missing `_key`s of `children`; when a
`markDefs` array is present fill its missing `_key`s as well. -/
def addKeysBlock (b : Block) (n : Nat) : Block × Nat :=
  match b with
  | .block key style li children mdefs =>
    let p1 : Option String × Nat :=
      match key with
      | none => (some (generateKey "block" n), n + 1)
      | some k => (some k, n)
    let p2 := addKeysList addKeysSpan children p1.2
    let p3 : Option (List MarkDef) × Nat :=
      match mdefs with
      | some ds =>
        let r := addKeysList addKeysMarkDef ds p2.2
        (some r.1, r.2)
      | none => (none, p2.2)
    (.block p1.1 style li p2.1 p3.1, p3.2)
  | .image key url alt =>
    match key with
    | none => (.image (some (generateKey "block" n)) url alt, n + 1)
    | some k => (.image (some k) url alt, n)
  | .codeBlock key c l =>
    match key with
    | none => (.codeBlock (some (generateKey "block" n)) c l, n + 1)
    | some k => (.codeBlock (some k) c l, n)

/-- `addKeysToContent(content)` on an array of blocks. -/
def addKeysToContent (content : List Block) (n : Nat) : List Block × Nat :=
  addKeysList addKeysBlock content n

/-- A span carries a `_key`. -/
def spanKeyed (s : Span) : Bool := s.key.isSome

/-- A markDef carries a `_key`. -/
def markDefKeyed (d : MarkDef) : Bool := d.key.isSome

/-- A block and everything inside it carry `_key`s. -/
def blockKeyed : Block → Bool
  | .block key _ _ children mdefs =>
    key.isSome && children.all spanKeyed &&
      (match mdefs with
       | some ds => ds.all markDefKeyed
       | none => true)
  | .image key _ _ => key.isSome
  | .codeBlock key _ _ => key.isSome

/-- Every block of the array is fully keyed. -/
def contentKeyed (bs : List Block) : Bool := bs.all blockKeyed

/-- The key-assigner left a span alone except possibly filling a missing key:
an already-keyed span is returned unchanged, an unkeyed one keeps its text and
marks and gains some key. -/
def spanUntouched (s s' : Span) : Bool :=
  match s.key with
  | some _ => s' == s
  | none => s'.text == s.text && s'.marks == s.marks && s'.key.isSome

/-- Same for a markDef. -/
def markDefUntouched (d d' : MarkDef) : Bool :=
  match d.key with
  | some _ => d' == d
  | none => d'.type == d.type && d'.href == d.href && d'.key.isSome

/-- Pairwise lifting of an untouched-check to JS arrays. -/
def listUntouched (f : α → α → Bool) (l l' : List α) : Bool :=
  l.length == l'.length && (List.zip l l').all fun p => f p.1 p.2

/-- The key-assigner preserved everything about a block except filling missing
keys: an already-present `_key` (of the block, of any span, of any markDef) is
kept with that same value, and all other fields are unchanged. -/
def blockUntouched : Block → Block → Bool
  | .block k s li cs ds, .block k' s' li' cs' ds' =>
    (match k with
     | some k0 => k' == some k0
     | none => k'.isSome) &&
    s' == s && li' == li && listUntouched spanUntouched cs cs' &&
    (match ds, ds' with
     | none, none => true
     | some l, some l' => listUntouched markDefUntouched l l'
     | _, _ => false)
  | .image k u a, .image k' u' a' =>
    (match k with
     | some k0 => k' == some k0
     | none => k'.isSome) && u' == u && a' == a
  | .codeBlock k c l, .codeBlock k' c' l' =>
    (match k with
     | some k0 => k' == some k0
     | none => k'.isSome) && c' == c && l' == l
  | _, _ => false

theorem addKeysSpan_keyed (s : Span) (n : Nat) : spanKeyed (addKeysSpan s n).1 = true := by
  cases h : s.key <;> simp [addKeysSpan, h, spanKeyed]

theorem addKeysSpan_of_keyed (s : Span) (n : Nat) (h : spanKeyed s = true) :
    addKeysSpan s n = (s, n) := by
  cases hk : s.key with
  | none => simp [spanKeyed, hk] at h
  | some k => simp [addKeysSpan, hk]

theorem addKeysMarkDef_keyed (d : MarkDef) (n : Nat) :
    markDefKeyed (addKeysMarkDef d n).1 = true := by
  cases h : d.key <;> simp [addKeysMarkDef, h, markDefKeyed]

theorem addKeysMarkDef_of_keyed (d : MarkDef) (n : Nat) (h : markDefKeyed d = true) :
    addKeysMarkDef d n = (d, n) := by
  cases hk : d.key with
  | none => simp [markDefKeyed, hk] at h
  | some k => simp [addKeysMarkDef, hk]

theorem addKeysList_all {f : α → Nat → α × Nat} {p : α → Bool}
    (hf : ∀ x n, p (f x n).1 = true) :
    ∀ (l : List α) (n : Nat), ((addKeysList f l n).1).all p = true := by
  intro l
  induction l with
  | nil => intro n; simp [addKeysList]
  | cons x xs ih =>
    intro n
    simp only [addKeysList, List.all_cons, Bool.and_eq_true]
    exact ⟨hf x n, ih _⟩

theorem addKeysList_of_all {f : α → Nat → α × Nat} {p : α → Bool}
    (hf : ∀ x n, p x = true → f x n = (x, n)) :
    ∀ (l : List α) (n : Nat), l.all p = true → addKeysList f l n = (l, n) := by
  intro l
  induction l with
  | nil => intro n _; simp [addKeysList]
  | cons x xs ih =>
    intro n h
    simp only [List.all_cons, Bool.and_eq_true] at h
    simp [addKeysList, hf x n h.1, ih n h.2]

theorem addKeysBlock_keyed (b : Block) (n : Nat) : blockKeyed (addKeysBlock b n).1 = true := by
  cases b with
  | block key style li children mdefs =>
    cases key <;> cases mdefs <;>
      simp [addKeysBlock, blockKeyed,
        addKeysList_all (f := addKeysSpan) (p := spanKeyed) addKeysSpan_keyed,
        addKeysList_all (f := addKeysMarkDef) (p := markDefKeyed) addKeysMarkDef_keyed]
  | image key url alt => cases key <;> simp [addKeysBlock, blockKeyed]
  | codeBlock key c l => cases key <;> simp [addKeysBlock, blockKeyed]

theorem addKeysBlock_of_keyed (b : Block) (n : Nat) (h : blockKeyed b = true) :
    addKeysBlock b n = (b, n) := by
  cases b with
  | block key style li children mdefs =>
    cases key with
    | none => simp [blockKeyed] at h
    | some k =>
      cases mdefs with
      | none =>
        simp only [blockKeyed, Option.isSome_some, Bool.true_and, Bool.and_eq_true] at h
        simp [addKeysBlock, addKeysList_of_all addKeysSpan_of_keyed children n h.1]
      | some ds =>
        simp only [blockKeyed, Option.isSome_some, Bool.true_and, Bool.and_eq_true] at h
        simp [addKeysBlock, addKeysList_of_all addKeysSpan_of_keyed children n h.1,
          addKeysList_of_all addKeysMarkDef_of_keyed ds n h.2]
  | image key url alt =>
    cases key with
    | none => simp [blockKeyed] at h
    | some k => simp [addKeysBlock]
  | codeBlock key c l =>
    cases key with
    | none => simp [blockKeyed] at h
    | some k => simp [addKeysBlock]

theorem addKeysToContent_keyed (bs : List Block) (n : Nat) :
    contentKeyed (addKeysToContent bs n).1 = true :=
  addKeysList_all addKeysBlock_keyed bs n

theorem addKeysToContent_of_keyed (bs : List Block) (n : Nat) (h : contentKeyed bs = true) :
    addKeysToContent bs n = (bs, n) :=
  addKeysList_of_all addKeysBlock_of_keyed bs n h

theorem addKeysSpan_untouched (s : Span) (n : Nat) :
    spanUntouched s (addKeysSpan s n).1 = true := by
  cases h : s.key <;> simp [addKeysSpan, h, spanUntouched]

theorem addKeysMarkDef_untouched (d : MarkDef) (n : Nat) :
    markDefUntouched d (addKeysMarkDef d n).1 = true := by
  cases h : d.key <;> simp [addKeysMarkDef, h, markDefUntouched]

theorem addKeysList_untouched {f : α → Nat → α × Nat} {g : α → α → Bool}
    (hf : ∀ x n, g x (f x n).1 = true) :
    ∀ (l : List α) (n : Nat), listUntouched g l (addKeysList f l n).1 = true := by
  intro l
  induction l with
  | nil => intro n; simp [addKeysList, listUntouched]
  | cons x xs ih =>
    intro n
    have h := ih (f x n).2
    simp only [listUntouched, Bool.and_eq_true, List.all_eq_true, beq_iff_eq] at h ⊢
    refine ⟨?_, ?_⟩
    · simp [addKeysList, h.1]
    · intro p hp
      simp only [addKeysList, List.zip_cons_cons, List.mem_cons] at hp
      rcases hp with hp | hp
      · subst hp; exact hf x n
      · exact h.2 p hp

theorem addKeysBlock_untouched (b : Block) (n : Nat) :
    blockUntouched b (addKeysBlock b n).1 = true := by
  cases b with
  | block key style li children mdefs =>
    cases key <;> cases mdefs <;>
      simp [addKeysBlock, blockUntouched,
        addKeysList_untouched (f := addKeysSpan) (g := spanUntouched) addKeysSpan_untouched,
        addKeysList_untouched (f := addKeysMarkDef) (g := markDefUntouched)
          addKeysMarkDef_untouched]
  | image key url alt => cases key <;> simp [addKeysBlock, blockUntouched]
  | codeBlock key c l => cases key <;> simp [addKeysBlock, blockUntouched]

/-- C1: key assignment is idempotent (a second run, with any fresh-key supply,
returns the first run's output unchanged, generating no key), and every block,
span and markDef that already carries a `_key` keeps exactly that `_key`
(captured by `blockUntouched`, which also checks all non-key fields are
preserved). -/
theorem addKeysToContent_idempotent (bs : List Block) (n m : Nat) :
    addKeysToContent (addKeysToContent bs n).1 m = ((addKeysToContent bs n).1, m)
    ∧ listUntouched blockUntouched bs (addKeysToContent bs n).1 = true :=
  ⟨addKeysToContent_of_keyed _ m (addKeysToContent_keyed bs n),
   addKeysList_untouched addKeysBlock_untouched bs n⟩

/-! ## DOM model

The converters receive JSDOM documents; we model the parsed DOM tree
directly.  `HNode.text` is a text node (`nodeType === 3`), `HNode.elem` an
element node (`nodeType === 1`) with its attribute list and child nodes.
Element tag names are stored as JSDOM reports them (the code lowercases with
`tagName?.toLowerCase()` before comparing, which we mirror). -/

inductive HNode where
  | text (s : String)
  | elem (tag : String) (attrs : List (String × String)) (children : List HNode)
deriving Repr

/-- JS `element.getAttribute(name)` (first matching attribute, `null` when
absent). -/
def getAttr (attrs : List (String × String)) (name : String) : Option String :=
  (attrs.find? (fun a => a.1 == name)).map (·.2)

/-- Child node list (`element.childNodes`). -/
def childrenOf : HNode → List HNode
  | .text _ => []
  | .elem _ _ cs => cs

def isElem : HNode → Bool
  | .elem _ _ _ => true
  | .text _ => false

/-- Element children (`element.children`, an HTMLCollection of element nodes
only). -/
def elemChildren (n : HNode) : List HNode :=
  (childrenOf n).filter isElem

/-- Lowercased tag name of an element node, `""` for text nodes. -/
def tagOf : HNode → String
  | .elem t _ _ => jsToLower t
  | .text _ => ""

mutual

/-- JS `node.textContent`: concatenation of all descendant text node data. -/
def textContent : HNode → String
  | .text s => s
  | .elem _ _ cs => textContentList cs

/-- Text content of a node list. -/
def textContentList : List HNode → String
  | [] => ""
  | n :: rest => textContent n ++ textContentList rest

end

/-- Helper `getTextContent(element)` used by the scripts:
`element.textContent?.trim() || ''`. -/
def getTextContent (n : HNode) : String :=
  jsTrim (textContent n)

mutual

/-- All element descendants in tree order, excluding the node itself
(the search space of `element.querySelectorAll`/`querySelector`). -/
def descendants : HNode → List HNode
  | .text _ => []
  | .elem _ _ cs => descendantsList cs

def descendantsList : List HNode → List HNode
  | [] => []
  | n :: rest =>
    (if isElem n then [n] else []) ++ descendants n ++ descendantsList rest

end

/-! ## Inline content parsers

Two versions coexist in the repository:
* `parseInlineContent` in scripts/substack-to-json.js (lines 312-402), which
  threads first/last/sibling information to implement the
  whitespace-around-anchors policy, and flattens anchors to a single span of
  their trimmed text content;
* `parseInlineContent` in scripts/update-post-formatting.js (lines 191-249,
  identical in update-skipped-posts.js lines 190-241), which keeps text nodes
  verbatim (dropping whitespace-only ones) and recurses into anchors.

Both push spans/markDefs onto shared accumulators and share a `markDefIndex`
counter; that mutable state is the `InlineState` record. -/

structure InlineState where
  children : List Span
  markDefs : List MarkDef
  markDefIndex : Nat
deriving Repr, DecidableEq

def initInlineState : InlineState := ⟨[], [], 0⟩

/-- Style mark added by a formatting tag (`strong`/`b`, `em`/`i`, `code`);
empty for other tags. -/
def styleMark (tag : String) : List String :=
  if tag = "strong" || tag = "b" then ["strong"]
  else if tag = "em" || tag = "i" then ["em"]
  else if tag = "code" then ["code"]
  else []

/-- Is the (optional) sibling an anchor element
(`sibling && sibling.nodeType === 1 && sibling.tagName?.toLowerCase() === 'a'`)? -/
def siblingIsLink : Option HNode → Bool
  | some (.elem t _ _) => jsToLower t == "a"
  | _ => false

/-- JS truthiness of a `getAttribute` result: `null` (absent attribute) and
the empty string are both falsy. -/
def truthyAttr : Option String → Option String
  | some v => if v = "" then none else some v
  | none => none

mutual

/-- Recursive `processNode` of the substack-to-json.js parser.  Arguments
mirror the JS signature `(node, inheritedMarks, isFirst, isLast, prevSibling,
nextSibling)`; the accumulator state comes last.  The anchor branch guard is
`if (text && href)`, so both the trimmed text content and the href attribute
must be truthy (`truthyAttr`: present and non-empty). -/
def processNodeSub (n : HNode) (marks : List String) (isFirst isLast : Bool)
    (prev next : Option HNode) (st : InlineState) : InlineState :=
  match n with
  | .text s =>
    let prevIsLink := siblingIsLink prev
    let nextIsLink := siblingIsLink next
    let t : String :=
      if isFirst && isLast then jsTrim s
      else if isFirst && !nextIsLink then ⟨trimStartChars s.data⟩
      else if isLast && !prevIsLink then ⟨trimEndChars s.data⟩
      else s
    if t ≠ "" then
      { st with children := st.children ++ [⟨none, t, marks⟩] }
    else st
  | .elem tag attrs cs =>
    let tagName := jsToLower tag
    let currentMarks := marks ++ styleMark tagName
    if tagName = "a" then
      match truthyAttr (getAttr attrs "href") with
      | some href =>
        let text := jsTrim (textContentList cs)
        if text ≠ "" then
          let markKey := "link-" ++ toString st.markDefIndex
          { st with
            children := st.children ++ [⟨none, text, currentMarks ++ [markKey]⟩],
            markDefs := st.markDefs ++ [⟨some markKey, "link", href⟩],
            markDefIndex := st.markDefIndex + 1 }
        else st
      | none => st
    else
      if cs.isEmpty then
        if tagName = "br" then { st with children := st.children ++ [⟨none, "\n", []⟩] } else st
      else processSiblingsSub none true currentMarks cs st

/-- Walk a child-node list left to right with the previous sibling at hand,
computing each node's `isFirst`/`isLast`/`prevSibling`/`nextSibling` flags as
the JS `childNodes.forEach((child, index) => ...)` does. -/
def processSiblingsSub (prev : Option HNode) (isFirst : Bool) (marks : List String) :
    List HNode → InlineState → InlineState
  | [], st => st
  | n :: rest, st =>
    processSiblingsSub (some n) false marks rest
      (processNodeSub n marks isFirst rest.isEmpty prev rest.head? st)

end

/-- Top level of the substack-to-json.js `parseInlineContent(element)`: walk
`element.childNodes` with empty inherited marks and fresh accumulators, and
return `{ children, markDefs }`. -/
def parseInlineContentSub (element : HNode) : InlineState :=
  processSiblingsSub none true [] (childrenOf element) initInlineState

mutual

/-- Recursive `processNode` of the update-post-formatting.js parser (no
whitespace trimming, no sibling tracking; identical in
update-skipped-posts.js).  The anchor branch guard is `if (href)`, so the
href attribute must be truthy (`truthyAttr`: present and non-empty). -/
def processNodeFmt (n : HNode) (marks : List String) (st : InlineState) : InlineState :=
  match n with
  | .text s =>
    if jsTrim s ≠ "" then
      { st with children := st.children ++ [⟨none, s, marks⟩] }
    else st
  | .elem tag attrs cs =>
    let tagName := jsToLower tag
    let currentMarks := marks ++ styleMark tagName
    if tagName = "a" then
      match truthyAttr (getAttr attrs "href") with
      | some href =>
        let markKey := "link-" ++ toString st.markDefIndex
        let st' : InlineState :=
          { st with
            markDefs := st.markDefs ++ [⟨some markKey, "link", href⟩],
            markDefIndex := st.markDefIndex + 1 }
        processListFmt (currentMarks ++ [markKey]) cs st'
      | none => st
    else
      processListFmt currentMarks cs st

/-- Walk a child-node list left to right
(`Array.from(node.childNodes).forEach(child => processNode(child, marks))`). -/
def processListFmt (marks : List String) : List HNode → InlineState → InlineState
  | [], st => st
  | n :: rest, st => processListFmt marks rest (processNodeFmt n marks st)

end

/-- Top level of the update-post-formatting.js `parseInlineContent(element)`. -/
def parseInlineContentFmt (element : HNode) : InlineState :=
  processListFmt [] (childrenOf element) initInlineState

/-- The `<p>Hello <a href="https://x.com">world</a>!</p>` element of C3, as
JSDOM parses it. -/
def exampleParaC3 : HNode :=
  .elem "P" []
    [ .text "Hello ",
      .elem "A" [("href", "https://x.com")] [.text "world"],
      .text "!" ]

/-- C3: on `<p>Hello <a href="https://x.com">world</a>!</p>` the inline parser
of substack-to-json.js produces exactly the spans `"Hello "`, `"world"`, `"!"`
in that order, untrimmed (the whitespace next to the anchor survives), where
only the middle span carries the mark key `link-0`, which resolves to the
single markDef of type `link` with href `https://x.com`. -/
theorem parseInline_hello_world_example :
    parseInlineContentSub exampleParaC3 =
      { children :=
          [ ⟨none, "Hello ", []⟩,
            ⟨none, "world", ["link-0"]⟩,
            ⟨none, "!", []⟩ ],
        markDefs := [⟨some "link-0", "link", "https://x.com"⟩],
        markDefIndex := 1 } := by
  decide

/-! ## Block converters (`htmlToPortableText`)

Again two versions: scripts/substack-to-json.js lines 184-309 (headings,
blockquotes and list items keep only their trimmed text content) and
scripts/update-post-formatting.js lines 60-188 (they keep inline formatting
via the fmt parser).  Both iterate only the element children of `body` and
fall back to one `normal` block from the whole body when nothing was
produced. -/

def attrsOf : HNode → List (String × String)
  | .elem _ attrs _ => attrs
  | .text _ => []

/-- The `src || data-src` image source resolution, followed by the `if (src)`
truthiness check. -/
def imageSrc (element : HNode) : Option String :=
  match truthyAttr (getAttr (attrsOf element) "src") with
  | some v => some v
  | none => truthyAttr (getAttr (attrsOf element) "data-src")

/-- The `alt || ''` attribute default. -/
def imageAlt (element : HNode) : String :=
  (truthyAttr (getAttr (attrsOf element) "alt")).getD ""

/-- Word character of the JS regex class `\w`. -/
def isWordChar (c : Char) : Bool :=
  ('a' ≤ c && c ≤ 'z') || ('A' ≤ c && c ≤ 'Z') || ('0' ≤ c && c ≤ '9') || c = '_'

/-- First match of `/language-(\w+)/` in a class string: scan left to right
for the literal `language-` followed by at least one word character, and
capture the maximal word-character run. -/
def findLangToken : List Char → Option String
  | [] => none
  | l@(_ :: rest) =>
    if "language-".data.isPrefixOf l then
      let run := (l.drop 9).takeWhile isWordChar
      if run ≠ [] then some ⟨run⟩ else findLangToken rest
    else findLangToken rest

/-- `codeElement.className?.match(/language-(\w+)/)?.[1] || 'text'`. -/
def sniffLanguage (className : String) : String :=
  (findLangToken className.data).getD "text"

/-- Class attribute of an element (`className`, `""` when absent). -/
def classNameOf (element : HNode) : String :=
  (getAttr (attrsOf element) "class").getD ""

/-- Wrap a markDef list the way the converters spread it into the block:
present only when non-empty. -/
def mdOpt (l : List MarkDef) : Option (List MarkDef) :=
  if l.isEmpty then none else some l

/-- Per-element body of the substack-to-json.js `htmlToPortableText` forEach
(lines 196-294). -/
def convertElSub (element : HNode) : List Block :=
  let tagName := tagOf element
  if tagName = "h1" || tagName = "h2" || tagName = "h3" || tagName = "h4" then
    let text := getTextContent element
    if text ≠ "" then [.block none tagName none [⟨none, text, []⟩] none] else []
  else if tagName = "blockquote" then
    let text := getTextContent element
    if text ≠ "" then [.block none "blockquote" none [⟨none, text, []⟩] none] else []
  else if tagName = "ul" || tagName = "ol" then
    let listType := if tagName = "ul" then "bullet" else "number"
    (descendants element).filterMap fun li =>
      if tagOf li = "li" then
        let text := getTextContent li
        if text ≠ "" then
          some (.block none "normal" (some listType) [⟨none, text, []⟩] none)
        else none
      else none
  else if tagName = "img" then
    match imageSrc element with
    | some src => [.image none src (imageAlt element)]
    | none => []
  else if tagName = "p" || tagName = "div" then
    let block := parseInlineContentSub element
    if ¬ block.children.isEmpty then
      [.block none "normal" none block.children (mdOpt block.markDefs)]
    else []
  else if tagName = "pre" then
    match (descendants element).find? (fun c => tagOf c == "code") with
    | some codeEl =>
      let code := getTextContent codeEl
      if code ≠ "" then [.codeBlock none code (sniffLanguage (classNameOf codeEl))] else []
    | none => []
  else []

/-- `htmlToPortableText` of substack-to-json.js applied to the parsed `body`
element (the JSDOM construction from the HTML string is external). -/
def htmlToPortableTextSub (body : HNode) : List Block :=
  let blocks := (elemChildren body).flatMap convertElSub
  if blocks.isEmpty then
    let text := getTextContent body
    if text ≠ "" then [.block none "normal" none [⟨none, text, []⟩] none] else []
  else blocks

/-- Per-element body of the update-post-formatting.js `htmlToPortableText`
forEach (lines 72-172). -/
def convertElFmt (element : HNode) : List Block :=
  let tagName := tagOf element
  if tagName = "h1" || tagName = "h2" || tagName = "h3" || tagName = "h4" then
    let block := parseInlineContentFmt element
    if ¬ block.children.isEmpty then
      [.block none tagName none block.children (mdOpt block.markDefs)]
    else []
  else if tagName = "blockquote" then
    let block := parseInlineContentFmt element
    if ¬ block.children.isEmpty then
      [.block none "blockquote" none block.children (mdOpt block.markDefs)]
    else []
  else if tagName = "ul" || tagName = "ol" then
    let listType := if tagName = "ul" then "bullet" else "number"
    (descendants element).filterMap fun li =>
      if tagOf li = "li" then
        let block := parseInlineContentFmt li
        if ¬ block.children.isEmpty then
          some (.block none "normal" (some listType) block.children (mdOpt block.markDefs))
        else none
      else none
  else if tagName = "img" then
    match imageSrc element with
    | some src => [.image none src (imageAlt element)]
    | none => []
  else if tagName = "p" || tagName = "div" then
    let block := parseInlineContentFmt element
    if ¬ block.children.isEmpty then
      [.block none "normal" none block.children (mdOpt block.markDefs)]
    else []
  else if tagName = "pre" then
    match (descendants element).find? (fun c => tagOf c == "code") with
    | some codeEl =>
      let code := getTextContent codeEl
      if code ≠ "" then [.codeBlock none code (sniffLanguage (classNameOf codeEl))] else []
    | none => []
  else []

/-- `htmlToPortableText` of update-post-formatting.js applied to the parsed
`body` element. -/
def htmlToPortableTextFmt (body : HNode) : List Block :=
  let blocks := (elemChildren body).flatMap convertElFmt
  if blocks.isEmpty then
    let block := parseInlineContentFmt body
    if ¬ block.children.isEmpty then
      [.block none "normal" none block.children (mdOpt block.markDefs)]
    else []
  else blocks

/-- A `_type: 'block'` text block whose `children` array is empty. -/
def isEmptyTextBlock : Block → Bool
  | .block _ _ _ children _ => children.isEmpty
  | _ => false

theorem convertElSub_no_empty (element : HNode) (b : Block)
    (hb : b ∈ convertElSub element) : isEmptyTextBlock b = false := by
  unfold convertElSub at hb
  dsimp only at hb
  split_ifs at hb <;>
    first
    | (simp only [List.mem_filterMap] at hb
       obtain ⟨li, -, hli⟩ := hb
       split_ifs at hli <;>
         first
         | (rw [Option.some.injEq] at hli
            subst hli
            simp_all [isEmptyTextBlock, Bool.eq_false_iff, List.isEmpty_iff])
         | simp_all)
    | (rw [List.mem_singleton] at hb
       subst hb
       simp_all [isEmptyTextBlock, Bool.eq_false_iff, List.isEmpty_iff])
    | (split at hb <;> (try split_ifs at hb) <;>
         first
         | (rw [List.mem_singleton] at hb
            subst hb
            simp_all [isEmptyTextBlock, Bool.eq_false_iff, List.isEmpty_iff])
         | simp_all)
    | simp_all [isEmptyTextBlock, Bool.eq_false_iff, List.isEmpty_iff]

theorem convertElFmt_no_empty (element : HNode) (b : Block)
    (hb : b ∈ convertElFmt element) : isEmptyTextBlock b = false := by
  unfold convertElFmt at hb
  dsimp only at hb
  split_ifs at hb <;>
    first
    | (simp only [List.mem_filterMap] at hb
       obtain ⟨li, -, hli⟩ := hb
       split_ifs at hli <;>
         first
         | (rw [Option.some.injEq] at hli
            subst hli
            simp_all [isEmptyTextBlock, Bool.eq_false_iff, List.isEmpty_iff])
         | simp_all)
    | (rw [List.mem_singleton] at hb
       subst hb
       simp_all [isEmptyTextBlock, Bool.eq_false_iff, List.isEmpty_iff])
    | (split at hb <;> (try split_ifs at hb) <;>
         first
         | (rw [List.mem_singleton] at hb
            subst hb
            simp_all [isEmptyTextBlock, Bool.eq_false_iff, List.isEmpty_iff])
         | simp_all)
    | simp_all [isEmptyTextBlock, Bool.eq_false_iff, List.isEmpty_iff]

/-- C2: neither block converter ever emits a `_type: 'block'` text block with
an empty `children` array, on any input DOM tree; elements without
extractable inline content simply contribute no block. -/
theorem htmlToPortableText_no_empty_block (body : HNode) (b : Block) :
    (b ∈ htmlToPortableTextSub body → isEmptyTextBlock b = false)
    ∧ (b ∈ htmlToPortableTextFmt body → isEmptyTextBlock b = false) := by
  constructor
  · intro hb
    unfold htmlToPortableTextSub at hb
    dsimp only at hb
    split_ifs at hb <;>
      first
      | (rw [List.mem_flatMap] at hb
         obtain ⟨el, -, hel⟩ := hb
         exact convertElSub_no_empty el b hel)
      | simp_all [isEmptyTextBlock]
  · intro hb
    unfold htmlToPortableTextFmt at hb
    dsimp only at hb
    split_ifs at hb <;>
      first
      | (rw [List.mem_flatMap] at hb
         obtain ⟨el, -, hel⟩ := hb
         exact convertElFmt_no_empty el b hel)
      | simp_all [isEmptyTextBlock]

/-- Witness for C2: a concrete body whose paragraph yields one block, checked
to be a non-empty text block. -/
theorem htmlToPortableText_no_empty_block_witness :
    (Block.block none "normal" none [⟨none, "hi", []⟩] none
        ∈ htmlToPortableTextSub (.elem "BODY" [] [.elem "P" [] [.text "hi"]]))
    ∧ isEmptyTextBlock (Block.block none "normal" none [⟨none, "hi", []⟩] none) = false := by
  refine ⟨by decide, ?_⟩
  exact (htmlToPortableText_no_empty_block (.elem "BODY" [] [.elem "P" [] [.text "hi"]])
    (Block.block none "normal" none [⟨none, "hi", []⟩] none)).1 (by decide)

/-! ## Document-to-markup renderer (netlify/functions/rss-feed.js)

`renderSpanHTML` embeds the `processChild` closure inside `portableTextToHTML`
(lines 165-246) and `renderSpanDesc` the span mapper inside
`extractTextFromContent` (lines 87-144).  Marks are modelled as the mark-key
strings stored by the converters above; the dead `typeof mark === 'object'`
branches of the renderer do not apply to them. -/

/-- Does the char list start with one of the XML entity tails recognised by
the negative lookahead `(?!amp;|lt;|gt;|quot;|apos;|#\d+;|#x[0-9a-fA-F]+;)`? -/
def isEntityTail (l : List Char) : Bool :=
  "amp;".data.isPrefixOf l || "lt;".data.isPrefixOf l || "gt;".data.isPrefixOf l ||
  "quot;".data.isPrefixOf l || "apos;".data.isPrefixOf l ||
  (match l with
   | '#' :: 'x' :: rest =>
     let run := rest.takeWhile (fun c => c.isDigit ||
       ('a' ≤ c && c ≤ 'f') || ('A' ≤ c && c ≤ 'F'))
     !run.isEmpty && ((rest.drop run.length).headD ' ' == ';')
   | '#' :: rest =>
     let run := rest.takeWhile Char.isDigit
     !run.isEmpty && ((rest.drop run.length).headD ' ' == ';')
   | _ => false)

/-- `text.replace(/&(?!amp;|lt;|gt;|quot;|apos;|#\d+;|#x[0-9a-fA-F]+;)/g, '&amp;')`. -/
def escapeAmpChars : List Char → List Char
  | [] => []
  | '&' :: rest =>
    if isEntityTail rest then '&' :: escapeAmpChars rest
    else '&' :: 'a' :: 'm' :: 'p' :: ';' :: escapeAmpChars rest
  | c :: rest => c :: escapeAmpChars rest

def escapeAmp (s : String) : String := ⟨escapeAmpChars s.data⟩

/-- `escaped.replace(/]]>/g, ']]]]><![CDATA[>')`. -/
def escapeCdataChars : List Char → List Char
  | ']' :: ']' :: '>' :: rest => "]]]]><![CDATA[>".data ++ escapeCdataChars rest
  | c :: rest => c :: escapeCdataChars rest
  | [] => []

/-- `escapeXmlText` of rss-feed.js: entity-aware ampersand escaping followed
by `]]>` neutralisation. -/
def escapeXmlText (s : String) : String := ⟨escapeCdataChars (escapeAmpChars s.data)⟩

/-- Host character of the validation regex class `[^\/\s]`. -/
def hostChar (c : Char) : Bool := !(c = '/') && !(jsWs c)

/-- Match of `/^https?:\/\/[^\/\s]+\.[^\/\s]+/i`: a case-insensitive http(s)
scheme followed by a host run containing an interior dot (the regex needs at
least one host char, a dot, and one more host char, all from `[^\/\s]`, which
includes the dot itself). -/
def hasHttpSchemeDotHost (s : String) : Bool :=
  let low := s.data.map Char.toLower
  let rest :=
    if "https://".data.isPrefixOf low then some (s.data.drop 8)
    else if "http://".data.isPrefixOf low then some (s.data.drop 7)
    else none
  match rest with
  | none => false
  | some r =>
    let run := r.takeWhile hostChar
    ((run.drop 1).dropLast).contains '.'

/-- Match of `/^https?:\/\//i`. -/
def startsWithHttpScheme (s : String) : Bool :=
  let low := s.data.map Char.toLower
  "https://".data.isPrefixOf low || "http://".data.isPrefixOf low

/-- First validation test of the renderer: absolute http(s) URL with a
dot-containing host, or a `/`, `#` or `mailto:` prefix. -/
def validUrlShape (s : String) : Bool :=
  hasHttpSchemeDotHost s || jsStartsWith s "/" || jsStartsWith s "#" || jsStartsWith s "mailto:"

/-- Href validation of `portableTextToHTML` (rss-feed.js lines 199-210): trim;
accept valid shapes as-is; prepend `https://` when the scheme is missing
entirely; otherwise reject (`none` = no anchor is emitted). -/
def validateHref (href0 : String) : Option String :=
  let href := jsTrim href0
  if validUrlShape href then some href
  else if href ≠ "" && !(startsWithHttpScheme href) then some ("https://" ++ href)
  else none

/-- Href validation of `extractTextFromContent` (rss-feed.js lines 113-133);
same acceptance logic reached through `if (href)`. -/
def validateHrefDesc (href0 : String) : Option String :=
  let href := jsTrim href0
  if href = "" then none
  else if validUrlShape href then some href
  else if !(startsWithHttpScheme href) then some ("https://" ++ href)
  else none

/-- Resolution of one (string) mark in `portableTextToHTML`: a markDef with
this `_key` and `_type: 'link'` must exist and have a truthy href; the
accepted href is ampersand-escaped.  An empty mark key is falsy and never a
link mark. -/
def resolveMarkHTML (mdefs : List MarkDef) (mark : String) : Option String :=
  if mark = "" then none
  else
    match mdefs.find? (fun d => d.key == some mark && d.type == "link") with
    | some d => if d.href ≠ "" then (validateHref d.href).map escapeAmp else none
    | none => none

/-- The `for (const mark of marks)` loop with `break` on the first accepted
link href. -/
def findLinkHrefHTML (mdefs : List MarkDef) : List String → Option String
  | [] => none
  | m :: rest =>
    match resolveMarkHTML mdefs m with
    | some h => some h
    | none => findLinkHrefHTML mdefs rest

/-- `processChild` of `portableTextToHTML`: escape the text, resolve the link
href, wrap style marks (skipping `link-`-prefixed keys), then wrap the anchor
outside the style tags. -/
def renderSpanHTML (mdefs : List MarkDef) (child : Span) : String :=
  if child.text = "" then ""
  else
    let linkHref := findLinkHrefHTML mdefs child.marks
    let text1 := child.marks.foldl
      (fun t mark =>
        if !(jsStartsWith mark "link-") then
          if mark = "strong" then "<strong>" ++ t ++ "</strong>"
          else if mark = "em" then "<em>" ++ t ++ "</em>"
          else if mark = "code" then "<code>" ++ t ++ "</code>"
          else t
        else t)
      (escapeXmlText child.text)
    match linkHref with
    | some h => "<a href=" ++ "\"" ++ h ++ "\"" ++ ">" ++ text1 ++ "</a>"
    | none => text1

/-- Mark resolution of `extractTextFromContent` (no escaping yet). -/
def resolveMarkDesc (mdefs : List MarkDef) (mark : String) : Option String :=
  if mark = "" then none
  else
    match mdefs.find? (fun d => d.key == some mark && d.type == "link") with
    | some d => if d.href ≠ "" then validateHrefDesc d.href else none
    | none => none

def findLinkHrefDesc (mdefs : List MarkDef) : List String → Option String
  | [] => none
  | m :: rest =>
    match resolveMarkDesc mdefs m with
    | some h => some h
    | none => findLinkHrefDesc mdefs rest

/-- Escaping applied to the description href: `&`, `<`, `>`, `"`. -/
def escDescHref (s : String) : String :=
  ⟨s.data.flatMap fun c =>
    if c = '&' then "&amp;".data
    else if c = '<' then "&lt;".data
    else if c = '>' then "&gt;".data
    else if c = '"' then "&quot;".data
    else [c]⟩

/-- Escaping applied to the description link text: `&`, `<`, `>`. -/
def escDescText (s : String) : String :=
  ⟨s.data.flatMap fun c =>
    if c = '&' then "&amp;".data
    else if c = '<' then "&lt;".data
    else if c = '>' then "&gt;".data
    else [c]⟩

/-- Span mapper of `extractTextFromContent`: wrap the raw text in an anchor
when a link mark resolves, otherwise return the raw text. -/
def renderSpanDesc (mdefs : List MarkDef) (child : Span) : String :=
  match findLinkHrefDesc mdefs child.marks with
  | some h =>
    "<a href=" ++ "\"" ++ escDescHref h ++ "\"" ++ ">" ++ escDescText child.text ++ "</a>"
  | none => child.text

/-- A mark key that triggers no style wrapping in the renderer's style loop:
either it carries the legacy `link-` marker (explicitly skipped) or it is not
one of the style names `strong`/`em`/`code`. -/
def styleNeutral (k : String) : Bool :=
  jsStartsWith k "link-" || (k != "strong" && k != "em" && k != "code")

theorem renderSpanHTML_single_link (k href t : String) (hSN : styleNeutral k = true)
    (hk : k ≠ "") :
    renderSpanHTML [⟨some k, "link", href⟩] ⟨none, t, [k]⟩ =
      if t = "" then ""
      else
        match (validateHref href).map escapeAmp with
        | some h => "<a href=" ++ "\"" ++ h ++ "\"" ++ ">" ++ escapeXmlText t ++ "</a>"
        | none => escapeXmlText t := by
  by_cases ht : t = ""
  · simp [renderSpanHTML, ht]
  · have hfold :
        List.foldl
          (fun t mark =>
            if !(jsStartsWith mark "link-") then
              if mark = "strong" then "<strong>" ++ t ++ "</strong>"
              else if mark = "em" then "<em>" ++ t ++ "</em>"
              else if mark = "code" then "<code>" ++ t ++ "</code>"
              else t
            else t)
          (escapeXmlText t) [k] = escapeXmlText t := by
      unfold styleNeutral at hSN
      by_cases hl : jsStartsWith k "link-"
      · simp [hl]
      · simp only [hl, Bool.false_or, Bool.and_eq_true, bne_iff_ne, ne_eq] at hSN
        simp [hl, hSN.1.1, hSN.1.2, hSN.2]
    have hres : resolveMarkHTML [⟨some k, "link", href⟩] k =
        (validateHref href).map escapeAmp := by
      by_cases hhref : href = ""
      · subst hhref
        have hv : validateHref "" = none := by decide
        simp [resolveMarkHTML, hk, hv, List.find?]
      · simp [resolveMarkHTML, hk, hhref, List.find?]
    simp only [renderSpanHTML, ht, if_neg, findLinkHrefHTML, hres]
    rw [hfold]
    cases hopt : Option.map escapeAmp (validateHref href) <;> simp [hopt]

theorem renderSpanDesc_single_link (k href t : String) (hk : k ≠ "") :
    renderSpanDesc [⟨some k, "link", href⟩] ⟨none, t, [k]⟩ =
      match validateHrefDesc href with
      | some h => "<a href=" ++ "\"" ++ escDescHref h ++ "\"" ++ ">" ++ escDescText t ++ "</a>"
      | none => t := by
  have hres : resolveMarkDesc [⟨some k, "link", href⟩] k = validateHrefDesc href := by
    by_cases hhref : href = ""
    · subst hhref
      have hv : validateHrefDesc "" = none := by decide
      simp [resolveMarkDesc, hk, hv, List.find?]
    · simp [resolveMarkDesc, hk, hhref, List.find?]
  simp only [renderSpanDesc, findLinkHrefDesc, hres]
  cases hopt : validateHrefDesc href <;> simp [hopt]

/-- C4: a span whose single mark key resolves to a `_type: 'link'` markDef is
rendered identically whatever the key string is (legacy `link-<n>` keys and
opaque keys included), in both the content renderer and the description
renderer; and when the href passes validation the content renderer wraps the
escaped span text in the corresponding anchor tag.  The only constraint on
the key is the one visible in the style loop: it must not itself be one of
the style names `strong`/`em`/`code` (legacy `link-` keys are explicitly
exempted there), and it must be truthy. -/
theorem link_key_shapes_render_identically (t href k1 k2 : String)
    (h1 : styleNeutral k1 = true) (h2 : styleNeutral k2 = true)
    (hk1 : k1 ≠ "") (hk2 : k2 ≠ "") :
    renderSpanHTML [⟨some k1, "link", href⟩] ⟨none, t, [k1]⟩ =
      renderSpanHTML [⟨some k2, "link", href⟩] ⟨none, t, [k2]⟩
    ∧ renderSpanDesc [⟨some k1, "link", href⟩] ⟨none, t, [k1]⟩ =
      renderSpanDesc [⟨some k2, "link", href⟩] ⟨none, t, [k2]⟩
    ∧ (∀ h, validateHref href = some h → t ≠ "" →
        renderSpanHTML [⟨some k1, "link", href⟩] ⟨none, t, [k1]⟩ =
          "<a href=" ++ "\"" ++ escapeAmp h ++ "\"" ++ ">" ++ escapeXmlText t ++ "</a>") := by
  refine ⟨?_, ?_, ?_⟩
  · rw [renderSpanHTML_single_link k1 href t h1 hk1, renderSpanHTML_single_link k2 href t h2 hk2]
  · rw [renderSpanDesc_single_link k1 href t hk1, renderSpanDesc_single_link k2 href t hk2]
  · intro h hv ht
    rw [renderSpanHTML_single_link k1 href t h1 hk1, hv]
    simp [ht]

/-- Witness for C4 at a legacy key and an opaque key. -/
theorem link_key_shapes_render_identically_witness :
    styleNeutral "link-0" = true ∧ styleNeutral "d29f57cddebc" = true
    ∧ renderSpanHTML [⟨some "d29f57cddebc", "link", "https://x.com"⟩]
        ⟨none, "world", ["d29f57cddebc"]⟩ =
      renderSpanHTML [⟨some "link-0", "link", "https://x.com"⟩] ⟨none, "world", ["link-0"]⟩ := by
  refine ⟨by decide, by decide, ?_⟩
  exact (link_key_shapes_render_identically "world" "https://x.com" "d29f57cddebc" "link-0"
    (by decide) (by decide) (by decide) (by decide)).1

/-- C5: href validation during rendering: `http://Manus` (http scheme but no
dot-containing host) is rejected and the span is rendered as plain text with
no anchor; `example.com/post` (no scheme) gets `https://` prepended; and any
href beginning with `/`, `#` or `mailto:` is accepted unchanged. -/
theorem href_validation_behaviour :
    validateHref "http://Manus" = none
    ∧ renderSpanHTML [⟨some "k0", "link", "http://Manus"⟩] ⟨none, "Manus", ["k0"]⟩ = "Manus"
    ∧ validateHref "example.com/post" = some "https://example.com/post"
    ∧ renderSpanHTML [⟨some "k0", "link", "example.com/post"⟩] ⟨none, "go", ["k0"]⟩ =
        "<a href=" ++ "\"" ++ "https://example.com/post" ++ "\"" ++ ">" ++ "go" ++ "</a>"
    ∧ ∀ h : String, jsTrim h = h →
        (jsStartsWith h "/" = true ∨ jsStartsWith h "#" = true ∨ jsStartsWith h "mailto:" = true) →
        validateHref h = some h := by
  refine ⟨by decide, by decide, by decide, by decide, ?_⟩
  intro h htrim hpre
  have hshape : validUrlShape h = true := by
    unfold validUrlShape
    rcases hpre with hp | hp | hp <;> simp [hp]
  unfold validateHref
  simp [htrim, hshape]

/-- Witness for C5's universally quantified part at `/about`. -/
theorem href_validation_behaviour_witness :
    validateHref "/about" = some "/about" := by
  exact (href_validation_behaviour).2.2.2.2 "/about" (by decide) (Or.inl (by decide))

/-! ## Description truncation (rss-feed.js, `generateRSSXML` lines 336-349)

`description.substring(0, 297)`, `lastIndexOf('</a>')` (`-1` when absent,
modelled as `none`), cut after the closer when its index exceeds 250,
otherwise append an ellipsis. -/

/-- `truncated.lastIndexOf('</a>')`: index of the last occurrence, `none` for
`-1`. -/
def lastCloseA : List Char → Option Nat
  | [] => none
  | c :: rest =>
    match lastCloseA rest with
    | some j => some (j + 1)
    | none => if "</a>".data.isPrefixOf (c :: rest) then some 0 else none

/-- The description truncation step of `generateRSSXML`: only applied when the
string exceeds 300 characters; `lastTag > 250` merges the absent (`-1`) case
into the ellipsis branch. -/
def truncateDescription (d : String) : String :=
  if d.length > 300 then
    let t := d.data.take 297
    match lastCloseA t with
    | some i => if 250 < i then ⟨t.take (i + 4)⟩ else ⟨t ++ "...".data⟩
    | none => ⟨t ++ "...".data⟩
  else d

theorem lastCloseA_spec : ∀ (l : List Char) (i : Nat), lastCloseA l = some i →
    ∃ sfx, l.drop i = "</a>".data ++ sfx := by
  intro l
  induction l with
  | nil => intro i h; simp [lastCloseA] at h
  | cons c rest ih =>
    intro i h
    unfold lastCloseA at h
    cases hr : lastCloseA rest with
    | some j =>
      rw [hr] at h
      injection h with h'
      subst h'
      obtain ⟨sfx, hs⟩ := ih j hr
      exact ⟨sfx, by simpa using hs⟩
    | none =>
      rw [hr] at h
      by_cases hp : "</a>".data.isPrefixOf (c :: rest) = true
      · rw [if_pos hp] at h
        injection h with h'
        subst h'
        obtain ⟨sfx, hs⟩ := List.isPrefixOf_iff_prefix.mp hp
        exact ⟨sfx, by simpa using hs.symm⟩
      · rw [if_neg hp] at h
        exact absurd h (by simp)

/-- Counterexample for C8: the truncation can end inside an open tag.  First
input: 294 `x`s followed by `<a href` (301 chars) — the cut falls inside the
anchor tag, no `</a>` is found, and the ellipsis result contains a `<` but no
`>` at all, i.e. an unterminated tag.  Second input: `a</a>` followed by 296
`z`s — a complete `</a>` boundary exists before the limit (at index 1), yet
the code does not cut there (the cut is only taken when the index exceeds
250); it appends an ellipsis instead. -/
theorem truncation_claim_counterexample :
    truncateDescription ⟨List.replicate 294 'x' ++ "<a href".data⟩ =
      ⟨List.replicate 294 'x' ++ "<a ".data ++ "...".data⟩
    ∧ (truncateDescription ⟨List.replicate 294 'x' ++ "<a href".data⟩).data.contains '<' = true
    ∧ (truncateDescription ⟨List.replicate 294 'x' ++ "<a href".data⟩).data.contains '>' = false
    ∧ lastCloseA ((⟨"a</a>".data ++ List.replicate 296 'z'⟩ : String).data.take 297) = some 1
    ∧ truncateDescription ⟨"a</a>".data ++ List.replicate 296 'z'⟩ =
        ⟨"a</a>".data ++ List.replicate 292 'z' ++ "...".data⟩ := by
  refine ⟨by decide, by decide, by decide, by decide, by decide⟩

/-- C8 (amended): when the description exceeds 300 characters, the result is
either the first 297 characters cut immediately after the last complete
`</a>` (taken only when that closer starts after index 250; the result then
ends with the complete `</a>`), or the first 297 characters with `...`
appended (in which case an open tag may be cut through). -/
theorem truncate_description_amended (d : String) (hlen : d.length > 300) :
    (∃ i, lastCloseA (d.data.take 297) = some i ∧ 250 < i
        ∧ truncateDescription d = ⟨(d.data.take 297).take (i + 4)⟩
        ∧ ∃ p, (truncateDescription d).data = p ++ "</a>".data)
    ∨ truncateDescription d = ⟨d.data.take 297 ++ "...".data⟩ := by
  have heq : truncateDescription d =
      (match lastCloseA (d.data.take 297) with
       | some i =>
         if 250 < i then (⟨(d.data.take 297).take (i + 4)⟩ : String)
         else ⟨d.data.take 297 ++ "...".data⟩
       | none => ⟨d.data.take 297 ++ "...".data⟩) := by
    unfold truncateDescription
    rw [if_pos hlen]
  cases hci : lastCloseA (d.data.take 297) with
  | none =>
    rw [hci] at heq
    exact Or.inr heq
  | some i =>
    rw [hci] at heq
    dsimp only at heq
    by_cases hig : 250 < i
    · rw [if_pos hig] at heq
      refine Or.inl ⟨i, rfl, hig, heq, ?_⟩
      obtain ⟨sfx, hs⟩ := lastCloseA_spec _ _ hci
      refine ⟨(d.data.take 297).take i, ?_⟩
      rw [heq]
      show (d.data.take 297).take (i + 4) = (d.data.take 297).take i ++ "</a>".data
      rw [List.take_add, hs]
      congr 1
    · rw [if_neg hig] at heq
      exact Or.inr heq

/-- Witness for the amended C8 at a 301-character input without any anchor. -/
theorem truncate_description_amended_witness :
    (⟨List.replicate 301 'x'⟩ : String).length > 300
    ∧ ((∃ i, lastCloseA ((⟨List.replicate 301 'x'⟩ : String).data.take 297) = some i ∧ 250 < i
          ∧ truncateDescription ⟨List.replicate 301 'x'⟩ =
              ⟨((⟨List.replicate 301 'x'⟩ : String).data.take 297).take (i + 4)⟩
          ∧ ∃ p, (truncateDescription ⟨List.replicate 301 'x'⟩).data = p ++ "</a>".data)
        ∨ truncateDescription ⟨List.replicate 301 'x'⟩ =
            ⟨(⟨List.replicate 301 'x'⟩ : String).data.take 297 ++ "...".data⟩) :=
  ⟨by decide, truncate_description_amended ⟨List.replicate 301 'x'⟩ (by decide)⟩

/-! ## Date parsing (`parseDate` in scripts/substack-to-json.js lines 89-131)

The claims concern all-digit inputs.  On such strings (length at least 5) the
initial `new Date(dateString)` call yields an Invalid Date in V8/Node (bare
numbers of five or more digits are not a recognised date string), so the ISO
branch falls through; `parseInt` then yields the number itself, and if the
timestamp branch rejects, none of the textual date regexes (which require a
`-`, `/` or letters) can match, so the function returns `null`.  `Date`
methods are modelled with UTC civil-calendar arithmetic (`getFullYear()` uses
the process time zone, UTC for the deployment in question;
`toISOString()` is UTC by definition). -/

/-- Convert a day count since 1970-01-01 to a civil (year, month, day),
standard era-based algorithm for non-negative day numbers. -/
def civilFromDays (z0 : Nat) : Nat × Nat × Nat :=
  let z := z0 + 719468
  let era := z / 146097
  let doe := z % 146097
  let yoe := (doe - doe / 1460 + doe / 36524 - doe / 146096) / 365
  let y := yoe + era * 400
  let doy := doe - (365 * yoe + yoe / 4 - yoe / 100)
  let mp := (5 * doy + 2) / 153
  let d := doy - (153 * mp + 2) / 5 + 1
  let m := if mp < 10 then mp + 3 else mp - 9
  (if m ≤ 2 then y + 1 else y, m, d)

def pad2 (n : Nat) : String :=
  if n < 10 then "0" ++ toString n else toString n

def pad3 (n : Nat) : String :=
  if n < 10 then "00" ++ toString n
  else if n < 100 then "0" ++ toString n
  else toString n

/-- `Date.prototype.toISOString()` for a non-negative millisecond timestamp:
canonical UTC ISO-8601 `YYYY-MM-DDTHH:mm:ss.sssZ`. -/
def msToIso (ms : Nat) : String :=
  let s := ms / 1000
  let msr := ms % 1000
  let days := s / 86400
  let secs := s % 86400
  let c := civilFromDays days
  toString c.1 ++ "-" ++ pad2 c.2.1 ++ "-" ++ pad2 c.2.2 ++ "T" ++
    pad2 (secs / 3600) ++ ":" ++ pad2 (secs % 3600 / 60) ++ ":" ++ pad2 (secs % 60) ++
    "." ++ pad3 msr ++ "Z"

/-- `date.getFullYear()` of a millisecond timestamp (UTC year). -/
def utcYearOfMs (ms : Nat) : Nat :=
  (civilFromDays (ms / 1000 / 86400)).1

/-- `parseInt(dateString, 10)` on an all-digit string. -/
def digitsToNat (s : String) : Nat :=
  s.data.foldl (fun a c => a * 10 + (c.toNat - '0'.toNat)) 0

/-- The timestamp branch of `parseDate` (lines 101-110), after
`parseInt` has produced `timestamp`:
`timestamp.toString().length === 10` selects a seconds interpretation
(multiply by 1000), anything else is taken as milliseconds, and the result is
kept only when `getFullYear()` lies strictly between 2000 and 2100. -/
def parseDateNum (timestamp : Nat) : Option String :=
  let ts := if (toString timestamp).length = 10 then timestamp * 1000 else timestamp
  let y := utcYearOfMs ts
  if 2000 < y ∧ y < 2100 then some (msToIso ts) else none

/-- `parseDate` restricted to all-digit input strings of length at least 5
(the ISO branch yields Invalid Date there, and the trailing textual formats
cannot match, so the timestamp branch decides the result). -/
def parseDate (s : String) : Option String :=
  parseDateNum (digitsToNat s)

/-- C6: `parseDate("1700000000")` returns the canonical UTC instant of that
value read as Unix seconds (the timestamp times 1000 milliseconds), which is
not the instant obtained by reading it as raw milliseconds; any input whose
decimal representation has 13 digits is interpreted as milliseconds and any
with 10 digits as seconds; and every accepted timestamp has its year strictly
between 2000 and 2100. -/
theorem parseDate_ten_digit_seconds :
    parseDate "1700000000" = some (msToIso (1700000000 * 1000))
    ∧ msToIso (1700000000 * 1000) = "2023-11-14T22:13:20.000Z"
    ∧ msToIso 1700000000 = "1970-01-20T16:13:20.000Z"
    ∧ parseDate "1700000000" ≠ some (msToIso 1700000000)
    ∧ (∀ n : Nat, (toString n).length = 13 → ∀ r, parseDateNum n = some r → r = msToIso n)
    ∧ (∀ n : Nat, (toString n).length = 10 → ∀ r, parseDateNum n = some r →
        r = msToIso (n * 1000))
    ∧ (∀ n : Nat, ∀ r, parseDateNum n = some r →
        2000 < utcYearOfMs (if (toString n).length = 10 then n * 1000 else n)
        ∧ utcYearOfMs (if (toString n).length = 10 then n * 1000 else n) < 2100) := by
  refine ⟨by decide, by decide, by decide, by decide, ?_, ?_, ?_⟩
  · intro n hlen r hr
    have hts : (if (toString n).length = 10 then n * 1000 else n) = n := by
      rw [hlen]; simp
    unfold parseDateNum at hr
    dsimp only at hr
    rw [hts] at hr
    split_ifs at hr with hy
    simpa using hr.symm
  · intro n hlen r hr
    have hts : (if (toString n).length = 10 then n * 1000 else n) = n * 1000 := by
      rw [hlen]; simp
    unfold parseDateNum at hr
    dsimp only at hr
    rw [hts] at hr
    split_ifs at hr with hy
    simpa using hr.symm
  · intro n r hr
    unfold parseDateNum at hr
    dsimp only at hr
    by_cases hl : (toString n).length = 10
    · rw [if_pos hl] at hr ⊢
      split_ifs at hr with hy
      exact hy
    · rw [if_neg hl] at hr ⊢
      split_ifs at hr with hy
      exact hy

/-- Witness for C6's universally quantified parts at concrete 13- and
10-digit timestamps. -/
theorem parseDate_ten_digit_seconds_witness :
    ((toString (1700000000000 : Nat)).length = 13
      ∧ parseDateNum 1700000000000 = some "2023-11-14T22:13:20.000Z"
      ∧ "2023-11-14T22:13:20.000Z" = msToIso 1700000000000)
    ∧ ((toString (1700000000 : Nat)).length = 10
      ∧ parseDateNum 1700000000 = some "2023-11-14T22:13:20.000Z"
      ∧ "2023-11-14T22:13:20.000Z" = msToIso (1700000000 * 1000))
    ∧ (2000 < utcYearOfMs (if (toString (1700000000 : Nat)).length = 10
          then 1700000000 * 1000 else 1700000000)
        ∧ utcYearOfMs (if (toString (1700000000 : Nat)).length = 10
          then 1700000000 * 1000 else 1700000000) < 2100) :=
  ⟨⟨by decide, by decide,
    (parseDate_ten_digit_seconds).2.2.2.2.1 1700000000000 (by decide)
      "2023-11-14T22:13:20.000Z" (by decide)⟩,
   ⟨by decide, by decide,
    (parseDate_ten_digit_seconds).2.2.2.2.2.1 1700000000 (by decide)
      "2023-11-14T22:13:20.000Z" (by decide)⟩,
   (parseDate_ten_digit_seconds).2.2.2.2.2.2 1700000000
     "2023-11-14T22:13:20.000Z" (by decide)⟩

/-! ## Record matcher (scripts/update-post-formatting.js:
`extractSlugFromFilename` lines 349-365 and the lookup cascade inside
`processFile` lines 459-505). -/

/-- Suffix after the last `/` (the basename portion of a path). -/
def afterLastSlash (l : List Char) : List Char :=
  (l.reverse.takeWhile (fun c => !(c = '/'))).reverse

/-- Node's `path.extname`: the suffix from the last `.` of the basename, `""`
when there is no dot or the only dot leads the basename. -/
def jsExtname (p : String) : String :=
  let base := afterLastSlash p.data
  let tail := (base.reverse.takeWhile (fun c => !(c = '.'))).reverse
  if tail.length = base.length then ""
  else if tail.length + 1 = base.length then ""
  else ⟨'.' :: tail⟩

/-- `path.basename(fileName, path.extname(fileName))`: the basename with its
extension stripped (Node keeps the name whole when it equals the
extension). -/
def baseNameNoExt (p : String) : String :=
  let base := afterLastSlash p.data
  let ext := (jsExtname p).data
  if !ext.isEmpty && ext.length < base.length && ext.isSuffixOf base then
    ⟨base.take (base.length - ext.length)⟩
  else ⟨base⟩

/-- Match of `/^(\d+)\.(.+)$/`: a non-empty leading digit run, a literal dot,
and a non-empty remainder without line terminators (which `.` does not
match). -/
def digitsDotRest (s : String) : Option (String × String) :=
  let ds := s.data.takeWhile Char.isDigit
  if ds.isEmpty then none
  else
    match s.data.drop ds.length with
    | '.' :: rest =>
      if !rest.isEmpty && rest.all (fun c => !(c = '\n') && !(c = '\r')) then
        some (⟨ds⟩, ⟨rest⟩)
      else none
    | _ => none

/-- `extractSlugFromFilename`: `"<digits>.<rest>"` becomes the concatenation
`"<digits><rest>"`; otherwise the basename is returned unchanged (both the
leading-digit test and the final fallback return `baseName`). -/
def extractSlugFromFilename (fileName : String) : String :=
  let baseName := baseNameNoExt fileName
  match digitsDotRest baseName with
  | some (ds, rest) => ds ++ rest
  | none => baseName

/-- One record of the Sanity post index (`{_id, title, slug}`). -/
structure Post where
  id : String
  title : String
  slug : String
deriving Repr, DecidableEq

/-- `title.toLowerCase().trim().replace(/\s+/g, ' ')`, with each whitespace
run collapsed to one space (the flag tracks whether the previous char was
part of a run). -/
def collapseWs : List Char → Bool → List Char
  | [], _ => []
  | c :: rest, prevWs =>
    if jsWs c then
      if prevWs then collapseWs rest true else ' ' :: collapseWs rest true
    else c :: collapseWs rest false

def normalizeTitle (t : String) : String :=
  ⟨collapseWs (jsTrim (jsToLower t)).data false⟩

/-- The matching cascade of `processFile`: exact slug lookup (lowercased),
then the digit-stripped slug (only when stripping changed something), then
the normalized extracted title.  The lookup maps are abstracted as functions
(`postsBySlug`/`postsByTitle` are maps keyed by lowercased slug and
normalized title); the document title extraction feeding step three is the
external DOM query, passed in as `docTitle`. -/
def findExistingPost (postsBySlug postsByTitle : String → Option Post)
    (slug : String) (docTitle : Option String) : Option Post :=
  match postsBySlug (jsToLower slug) with
  | some p => some p
  | none =>
    let slugWithoutNumbers : String := ⟨slug.data.dropWhile Char.isDigit⟩
    match (if slugWithoutNumbers ≠ slug then postsBySlug (jsToLower slugWithoutNumbers)
           else none) with
    | some p => some p
    | none =>
      match docTitle with
      | some t => postsByTitle (normalizeTitle t)
      | none => none

/-- C7: the filename `220.my-post.html` resolves to the concatenated slug
`220my-post`; and whenever the slug index holds the (lowercased) slug
exactly, the matcher returns that record and the digit-stripped and
title-based fallbacks are never consulted (the result does not depend on the
title index or on the extracted document title). -/
theorem record_matcher_exact_slug_first :
    extractSlugFromFilename "220.my-post.html" = "220my-post"
    ∧ ∀ (bySlug byTitle byTitle' : String → Option Post) (slug : String)
        (t t' : Option String) (p : Post),
        bySlug (jsToLower slug) = some p →
        findExistingPost bySlug byTitle slug t = some p
        ∧ findExistingPost bySlug byTitle slug t = findExistingPost bySlug byTitle' slug t' := by
  refine ⟨by decide, ?_⟩
  intro bySlug byTitle byTitle' slug t t' p hp
  unfold findExistingPost
  rw [hp]
  exact ⟨rfl, rfl⟩

/-- Witness for C7 with a one-record slug index. -/
theorem record_matcher_exact_slug_first_witness :
    (fun s => if s = "220my-post" then some (⟨"id1", "My Post", "220my-post"⟩ : Post)
       else none) (jsToLower "220my-post") = some ⟨"id1", "My Post", "220my-post"⟩
    ∧ findExistingPost
        (fun s => if s = "220my-post" then some ⟨"id1", "My Post", "220my-post"⟩ else none)
        (fun _ => none) "220my-post" (some "anything") = some ⟨"id1", "My Post", "220my-post"⟩ :=
  ⟨by decide,
   ((record_matcher_exact_slug_first).2
     (fun s => if s = "220my-post" then some ⟨"id1", "My Post", "220my-post"⟩ else none)
     (fun _ => none) (fun _ => none) "220my-post" (some "anything") none
     ⟨"id1", "My Post", "220my-post"⟩ (by decide)).1⟩

/-! ## Anchor handling and text-node policy of the inline parsers (C9, C10) -/

/-- Counterexample for C9: in both inline parsers an `<a>` element without an
`href` attribute is dropped entirely — its children are *not* processed
(`<p><a>hi</a></p>` parses to no spans at all, not to a span `"hi"`), because
the recursive descent into child nodes lives in the `else` branch of the
`tagName === 'a'` test and the anchor branch does nothing when `href` is
falsy (absent, or present but empty). -/
theorem anchor_without_href_counterexample :
    parseInlineContentSub (.elem "P" [] [.elem "A" [] [.text "hi"]]) = initInlineState
    ∧ parseInlineContentFmt (.elem "P" [] [.elem "A" [] [.text "hi"]]) = initInlineState
    ∧ (parseInlineContentSub (.elem "P" [] [.elem "A" [] [.text "hi"]])).children ≠
        [⟨none, "hi", []⟩] :=
  ⟨by decide, by decide, by decide⟩

/-- C9 (amended): an anchor without a truthy `href` (the attribute absent, or
present but the empty string — the JS `if (href)` / `if (text && href)`
truthiness tests) contributes nothing in either parser — no span, no markDef,
and its children are not processed; an anchor with a truthy `href` whose text
content trims to empty contributes nothing in the substack parser; and in the
formatting-preserving parser an anchor with a truthy `href` always records a
markDef and recurses into its children with the link mark added. -/
theorem anchor_handling_amended :
    (∀ tag attrs cs marks isFirst isLast prev next st, jsToLower tag = "a" →
       truthyAttr (getAttr attrs "href") = none →
       processNodeSub (.elem tag attrs cs) marks isFirst isLast prev next st = st)
    ∧ (∀ tag attrs cs marks st, jsToLower tag = "a" →
       truthyAttr (getAttr attrs "href") = none →
       processNodeFmt (.elem tag attrs cs) marks st = st)
    ∧ (∀ tag attrs cs marks isFirst isLast prev next st h, jsToLower tag = "a" →
       truthyAttr (getAttr attrs "href") = some h → jsTrim (textContentList cs) = "" →
       processNodeSub (.elem tag attrs cs) marks isFirst isLast prev next st = st)
    ∧ (∀ tag attrs cs marks st h, jsToLower tag = "a" →
       truthyAttr (getAttr attrs "href") = some h →
       processNodeFmt (.elem tag attrs cs) marks st =
         processListFmt (marks ++ styleMark "a" ++ ["link-" ++ toString st.markDefIndex]) cs
           { st with
             markDefs := st.markDefs ++
               [⟨some ("link-" ++ toString st.markDefIndex), "link", h⟩],
             markDefIndex := st.markDefIndex + 1 }) := by
  refine ⟨?_, ?_, ?_, ?_⟩
  · intro tag attrs cs marks isFirst isLast prev next st htag hhref
    unfold processNodeSub
    simp [htag, hhref]
  · intro tag attrs cs marks st htag hhref
    unfold processNodeFmt
    simp [htag, hhref]
  · intro tag attrs cs marks isFirst isLast prev next st h htag hhref htext
    unfold processNodeSub
    simp [htag, hhref, htext]
  · intro tag attrs cs marks st h htag hhref
    unfold processNodeFmt
    simp [htag, hhref]

/-- Witness for the amended C9, applied both to an anchor whose `href`
attribute is missing and to one whose `href` attribute is the empty string
(both falsy in JS). -/
theorem anchor_handling_amended_witness :
    (jsToLower "A" = "a" ∧ truthyAttr (getAttr [] "href") = none
      ∧ processNodeFmt (.elem "A" [] [.text "hi"]) [] initInlineState = initInlineState)
    ∧ (truthyAttr (getAttr [("href", "")] "href") = none
      ∧ processNodeFmt (.elem "A" [("href", "")] [.text "hi"]) [] initInlineState
          = initInlineState) :=
  ⟨⟨by decide, by decide,
    (anchor_handling_amended).2.1 "A" [] [.text "hi"] [] initInlineState
      (by decide) (by decide)⟩,
   ⟨by decide,
    (anchor_handling_amended).2.1 "A" [("href", "")] [.text "hi"] [] initInlineState
      (by decide) (by decide)⟩⟩

mutual

/-- Every text node content of a node equal to `t`, verbatim. -/
def hasTextNode : HNode → String → Bool
  | .text s, t => s == t
  | .elem _ _ cs, t => hasTextNodeList cs t

def hasTextNodeList : List HNode → String → Bool
  | [], _ => false
  | n :: rest, t => hasTextNode n t || hasTextNodeList rest t

end

theorem jsTrim_eq_empty_iff (s : String) : jsTrim s = "" ↔ ∀ c ∈ s.data, jsWs c = true := by
  have h1 : jsTrim s = "" ↔ trimEndChars (trimStartChars s.data) = [] := by
    constructor
    · intro h; exact congrArg String.data h
    · intro h; unfold jsTrim; rw [h]
  rw [h1]
  unfold trimEndChars trimStartChars
  rw [List.reverse_eq_nil_iff, List.dropWhile_eq_nil_iff]
  constructor
  · intro h c hc
    by_cases hcd : c ∈ s.data.dropWhile jsWs
    · exact h c (by simpa using hcd)
    · have hct : c ∈ s.data.takeWhile jsWs := by
        have happ := List.takeWhile_append_dropWhile (p := jsWs) (l := s.data)
        rw [← happ] at hc
        rcases List.mem_append.mp hc with h' | h'
        · exact h'
        · exact absurd h' hcd
      exact List.mem_takeWhile_imp hct
  · intro h c hc
    rw [List.mem_reverse] at hc
    exact h c ((List.dropWhile_sublist _).subset hc)

theorem exists_nonWs_of_jsTrim_ne (s : String) (h : jsTrim s ≠ "") :
    ∃ c ∈ s.data, jsWs c = false := by
  by_contra hc
  push_neg at hc
  apply h
  rw [jsTrim_eq_empty_iff]
  intro c hcm
  simpa using hc c hcm

mutual

theorem processNodeFmt_spans (n : HNode) (marks : List String) (st : InlineState) :
    ∃ new, (processNodeFmt n marks st).children = st.children ++ new
      ∧ ∀ sp ∈ new, (∃ c ∈ sp.text.data, jsWs c = false) ∧ hasTextNode n sp.text = true := by
  cases n with
  | text s =>
    unfold processNodeFmt
    by_cases hne : jsTrim s ≠ ""
    · rw [if_pos hne]
      refine ⟨[⟨none, s, marks⟩], rfl, ?_⟩
      intro sp hsp
      rw [List.mem_singleton] at hsp
      subst hsp
      exact ⟨exists_nonWs_of_jsTrim_ne s hne, by simp [hasTextNode]⟩
    · rw [if_neg hne]
      exact ⟨[], by simp, by simp⟩
  | elem tag attrs cs =>
    unfold processNodeFmt
    by_cases htag : jsToLower tag = "a"
    · rw [if_pos htag]
      cases hhref : truthyAttr (getAttr attrs "href") with
      | some href =>
        obtain ⟨new, hnew, hprop⟩ := processListFmt_spans cs
          ((marks ++ styleMark (jsToLower tag)) ++ ["link-" ++ toString st.markDefIndex])
          { st with
            markDefs := st.markDefs ++
              [⟨some ("link-" ++ toString st.markDefIndex), "link", href⟩],
            markDefIndex := st.markDefIndex + 1 }
        exact ⟨new, hnew, fun sp hsp => ⟨(hprop sp hsp).1, by
          simpa [hasTextNode] using (hprop sp hsp).2⟩⟩
      | none => exact ⟨[], by simp, by simp⟩
    · rw [if_neg htag]
      obtain ⟨new, hnew, hprop⟩ := processListFmt_spans cs (marks ++ styleMark (jsToLower tag)) st
      exact ⟨new, hnew, fun sp hsp => ⟨(hprop sp hsp).1, by
        simpa [hasTextNode] using (hprop sp hsp).2⟩⟩

theorem processListFmt_spans (l : List HNode) (marks : List String) (st : InlineState) :
    ∃ new, (processListFmt marks l st).children = st.children ++ new
      ∧ ∀ sp ∈ new, (∃ c ∈ sp.text.data, jsWs c = false) ∧ hasTextNodeList l sp.text = true := by
  cases l with
  | nil => exact ⟨[], by simp [processListFmt], by simp⟩
  | cons n rest =>
    obtain ⟨new1, hnew1, hprop1⟩ := processNodeFmt_spans n marks st
    obtain ⟨new2, hnew2, hprop2⟩ := processListFmt_spans rest marks (processNodeFmt n marks st)
    refine ⟨new1 ++ new2, ?_, ?_⟩
    · unfold processListFmt
      rw [hnew2, hnew1, List.append_assoc]
    · intro sp hsp
      rcases List.mem_append.mp hsp with hm | hm
      · exact ⟨(hprop1 sp hm).1, by simp [hasTextNodeList, (hprop1 sp hm).2]⟩
      · exact ⟨(hprop2 sp hm).1, by simp [hasTextNodeList, (hprop2 sp hm).2]⟩

end

/-- C10: in the formatting-preserving inline parser of the update scripts a
text node is emitted verbatim (completely untrimmed) exactly when it contains
a non-whitespace character — whitespace-only text nodes are dropped — and
consequently every span the parser emits has a text that contains a
non-whitespace character and is the verbatim content of some text node of the
element (no trimming rule of the substack parser is applied). -/
theorem fmt_parser_text_node_policy :
    (∀ (s : String) (marks : List String) (st : InlineState),
        (∃ c ∈ s.data, jsWs c = false) →
        processNodeFmt (.text s) marks st =
          { st with children := st.children ++ [⟨none, s, marks⟩] })
    ∧ (∀ (s : String) (marks : List String) (st : InlineState),
        (∀ c ∈ s.data, jsWs c = true) → processNodeFmt (.text s) marks st = st)
    ∧ (∀ (el : HNode) (sp : Span), sp ∈ (parseInlineContentFmt el).children →
        (∃ c ∈ sp.text.data, jsWs c = false)
        ∧ hasTextNodeList (childrenOf el) sp.text = true) := by
  refine ⟨?_, ?_, ?_⟩
  · intro s marks st hex
    have hne : jsTrim s ≠ "" := by
      intro he
      obtain ⟨c, hcm, hcw⟩ := hex
      have := (jsTrim_eq_empty_iff s).mp he c hcm
      simp [this] at hcw
    unfold processNodeFmt
    rw [if_pos hne]
  · intro s marks st hall
    have he : jsTrim s = "" := (jsTrim_eq_empty_iff s).mpr hall
    unfold processNodeFmt
    rw [if_neg (by simpa using he)]
  · intro el sp hsp
    obtain ⟨new, hnew, hprop⟩ := processListFmt_spans (childrenOf el) [] initInlineState
    unfold parseInlineContentFmt at hsp
    rw [hnew] at hsp
    simp only [initInlineState, List.nil_append] at hsp
    exact hprop sp hsp

/-- Witness for C10 at a paragraph with one untrimmed text node. -/
theorem fmt_parser_text_node_policy_witness :
    ((⟨none, " hi ", []⟩ : Span) ∈
        (parseInlineContentFmt (.elem "P" [] [.text " hi "])).children)
    ∧ (∃ c ∈ (" hi " : String).data, jsWs c = false)
    ∧ hasTextNodeList (childrenOf (.elem "P" [] [.text " hi "])) " hi " = true :=
  ⟨by decide,
   ((fmt_parser_text_node_policy).2.2 (.elem "P" [] [.text " hi "]) ⟨none, " hi ", []⟩
     (by decide)).1,
   ((fmt_parser_text_node_policy).2.2 (.elem "P" [] [.text " hi "]) ⟨none, " hi ", []⟩
     (by decide)).2⟩

end Blog
